import Mathlib

/-!
Verification of the substitution engine of fix-parser.py.

The script reads one file, applies three re.sub calls in order and writes the
result back:

  content = re.sub(r'\s+parseTime,\n', '\n', content)            -- line 11
  content = re.sub(r'\s+parseTime,\n', '\n', content)            -- line 13
  content = re.sub(r'\s+language:\s+resolvedLanguage,\n\s+\},',
                   '\n        \x7d,', content)                   -- line 15

Documents are modelled as List Char.  Python's re.sub scans the input left to
right, replaces each leftmost non-overlapping match and resumes immediately
after the replaced span; replacements never re-create match material because
scanning continues in the original string.  Both patterns here are a sequence
of literals and greedy nonempty whitespace runs, and every literal that follows
a run starts with a non-whitespace character, so a greedy run with backtracking
matches exactly the maximal whitespace run at its position.  The matchers below
exploit this: they return the length of the (unique) match anchored at the head
of the string, if any.
-/

/-- Whitespace test of Python's regex class \s on str patterns: the six ASCII
whitespace characters together with the Unicode whitespace characters. -/
def isWS (c : Char) : Bool :=
  c == ' ' || c == '\t' || c == '\n' || c == '\x0b' || c == '\x0c' || c == '\r'
  || c == '\x1c' || c == '\x1d' || c == '\x1e' || c == '\x1f'
  || c == '\x85' || c == '\xa0' || c == '\u1680'
  || ('\u2000' ≤ c && c ≤ '\u200a')
  || c == '\u2028' || c == '\u2029' || c == '\u202f' || c == '\u205f' || c == '\u3000'

/-- Length of the maximal whitespace run at the head of the string. -/
def wsRun : List Char → Nat
  | [] => 0
  | c :: cs => if isWS c then wsRun cs + 1 else 0

/-- Does the second list start with the first one (literal match)? -/
def startsWith : List Char → List Char → Bool
  | [], _ => true
  | _ :: _, [] => false
  | p :: ps, c :: cs => p == c && startsWith ps cs

/-- The literal parseTime,\n of the pattern of rules 1 and 2. -/
def litParseTime : List Char := ['p', 'a', 'r', 's', 'e', 'T', 'i', 'm', 'e', ',', '\n']

/-- The literal parseTime, without the newline (the claim texts speak of this
substring). -/
def litParseTimeStr : List Char := ['p', 'a', 'r', 's', 'e', 'T', 'i', 'm', 'e', ',']

/-- The literal language: of the pattern of rule 3. -/
def litLanguage : List Char := ['l', 'a', 'n', 'g', 'u', 'a', 'g', 'e', ':']

/-- The literal resolvedLanguage, of the pattern of rule 3. -/
def litResolved : List Char :=
  ['r', 'e', 's', 'o', 'l', 'v', 'e', 'd', 'L', 'a', 'n', 'g', 'u', 'a', 'g', 'e', ',']

/-- The literal closing brace and comma of the pattern of rule 3. -/
def litCloseBrace : List Char := ['\x7d', ',']

/-- Replacement string of rules 1 and 2: a single newline. -/
def replNewline : List Char := ['\n']

/-- Replacement string of rule 3: a newline, eight spaces, a closing brace and
a comma (the source hard-codes this indentation). -/
def replClose : List Char :=
  ['\n', ' ', ' ', ' ', ' ', ' ', ' ', ' ', ' ', '\x7d', ',']

/-- Matcher of the regex \s+parseTime,\n anchored at the head of s: a nonempty
maximal whitespace run followed by the literal.  Returns the matched length. -/
def matchP1 (s : List Char) : Option Nat :=
  if wsRun s = 0 then none
  else if startsWith litParseTime (List.drop (wsRun s) s) then
    some (wsRun s + litParseTime.length)
  else none

/-- Tail stage of the rule 3 matcher: the part \n\s+\x7d, of the regex, after
k1 characters of leading whitespace, the literal language:, k2 characters of
whitespace and the literal resolvedLanguage, have been consumed. -/
def matchP3Close (k1 k2 : Nat) (s4 : List Char) : Option Nat :=
  match s4 with
  | [] => none
  | c :: s5 =>
    if c = '\n' then
      if wsRun s5 = 0 then none
      else if startsWith litCloseBrace (List.drop (wsRun s5) s5) then
        some (k1 + litLanguage.length + k2 + litResolved.length + 1
          + wsRun s5 + litCloseBrace.length)
      else none
    else none

/-- Stage of the rule 3 matcher expecting the literal resolvedLanguage,. -/
def matchP3Res (k1 k2 : Nat) (s3 : List Char) : Option Nat :=
  if startsWith litResolved s3 then
    matchP3Close k1 k2 (List.drop litResolved.length s3)
  else none

/-- Stage of the rule 3 matcher expecting the whitespace run after the literal
language: (the second \s+ of the regex). -/
def matchP3Sp (k1 : Nat) (s2 : List Char) : Option Nat :=
  if wsRun s2 = 0 then none
  else matchP3Res k1 (wsRun s2) (List.drop (wsRun s2) s2)

/-- Stage of the rule 3 matcher expecting the literal language:. -/
def matchP3Lang (k1 : Nat) (s1 : List Char) : Option Nat :=
  if startsWith litLanguage s1 then
    matchP3Sp k1 (List.drop litLanguage.length s1)
  else none

/-- Matcher of the regex \s+language:\s+resolvedLanguage,\n\s+\x7d, anchored
at the head of s.  Returns the matched length. -/
def matchP3 (s : List Char) : Option Nat :=
  if wsRun s = 0 then none
  else matchP3Lang (wsRun s) (List.drop (wsRun s) s)

/-- Fuel-indexed worker of the substitution scan.  At each position the matcher
m is tried; on a match of length n the replacement r is emitted and the scan
resumes after the matched span, otherwise the current character is copied.
One unit of fuel is spent per position, and every match consumes at least the
position's head character, so fuel equal to the length of the string suffices
(the 0-fuel branch is never reached from reSub). -/
def reSubF (m : List Char → Option Nat) (r : List Char) : Nat → List Char → List Char
  | _, [] => []
  | 0, s => s
  | Nat.succ f, c :: cs =>
    match m (c :: cs) with
    | some n => r ++ reSubF m r f (List.drop (n - 1) cs)
    | none => c :: reSubF m r f cs

/-- re.sub of a matcher and a replacement over a whole document: leftmost,
non-overlapping matches, scanning the original string left to right. -/
def reSub (m : List Char → Option Nat) (r : List Char) (s : List Char) : List Char :=
  reSubF m r s.length s

/-- A Rule of the Rule Set: a compiled pattern, given as an anchored matcher
returning the matched length, and a replacement string. -/
structure Rule where
  pat : List Char → Option Nat
  repl : List Char

/-- Apply one Rule to a Document. -/
def applyRule (ru : Rule) (s : List Char) : List Char := reSub ru.pat ru.repl s

/-- Rule of line 11: re.sub(r'\s+parseTime,\n', '\n', content). -/
def rule1 : Rule := ⟨matchP1, replNewline⟩

/-- Rule of line 13, byte-for-byte identical to rule 1. -/
def rule2 : Rule := ⟨matchP1, replNewline⟩

/-- Rule of line 15: re.sub of the language/resolvedLanguage pattern with the
fixed replacement of eight-space indentation. -/
def rule3 : Rule := ⟨matchP3, replClose⟩

/-- The fixed Rule Set of the script, in source order. -/
def ruleSet : List Rule := [rule1, rule2, rule3]

/-- Line 11 of the source. -/
def fixStep1 (content : List Char) : List Char := applyRule rule1 content

/-- Line 13 of the source. -/
def fixStep2 (content : List Char) : List Char := applyRule rule2 content

/-- Line 15 of the source. -/
def fixStep3 (content : List Char) : List Char := applyRule rule3 content

/-- The full substitution engine: the three re.sub calls in source order. -/
def fixParser (content : List Char) : List Char :=
  fixStep3 (fixStep2 (fixStep1 content))

/-- Does the matcher m match at some position of s (at some suffix)? -/
def hasMatch (m : List Char → Option Nat) : List Char → Bool
  | [] => false
  | c :: cs => (m (c :: cs)).isSome || hasMatch m cs

/-- No match of m starts at a position inside p when p is followed by rest. -/
def noStart (m : List Char → Option Nat) : List Char → List Char → Bool
  | [], _ => true
  | c :: cs, rest => (m (c :: cs ++ rest)).isNone && noStart m cs rest

/-- Does pat occur as a contiguous substring of the second argument? -/
def containsStr (pat : List Char) : List Char → Bool
  | [] => startsWith pat []
  | c :: cs => startsWith pat (c :: cs) || containsStr pat cs

/-- Split a document into its lines at newline characters. -/
def splitLines : List Char → List (List Char)
  | [] => [[]]
  | c :: cs =>
    if c = '\n' then [] :: splitLines cs
    else
      match splitLines cs with
      | [] => [[c]]
      | l :: ls => (c :: l) :: ls

/-- Trim leading and trailing whitespace from a line. -/
def trimWS (l : List Char) : List Char :=
  ((l.dropWhile isWS).reverse.dropWhile isWS).reverse

/-- Trace events of one run of the script, for the ordering claims: reading the
target file, compiling the pattern of rule i, applying rule i, writing the file
back and printing the final message. -/
inductive Ev where
  | readFile : Ev
  | compilePat : Nat → Ev
  | subApply : Nat → Ev
  | writeFile : Ev
  | printDone : Ev
deriving DecidableEq

/-- Event trace of the script in source order: the file is read (line 6), then
each re.sub call first compiles its pattern and, when the pattern is
well-formed, applies it (lines 11, 13, 15), then the file is written back
(line 17) and the message printed (line 20).  In Python a malformed pattern
makes re.sub raise at the point of the call, so the flag ok_i cuts the trace
at the compilation of pattern i; the file has already been read by then. -/
def scriptTrace (ok1 ok2 ok3 : Bool) : List Ev :=
  Ev.readFile :: Ev.compilePat 1 ::
    (if ok1 then
      Ev.subApply 1 :: Ev.compilePat 2 ::
        (if ok2 then
          Ev.subApply 2 :: Ev.compilePat 3 ::
            (if ok3 then [Ev.subApply 3, Ev.writeFile, Ev.printDone] else [])
        else [])
    else [])

theorem reSubF_congr_fuel (m : List Char → Option Nat) (r : List Char) :
    ∀ f1 f2 s, s.length ≤ f1 → s.length ≤ f2 → reSubF m r f1 s = reSubF m r f2 s := by
  intro f1
  induction f1 with
  | zero =>
    intro f2 s h1 _
    have hs : s = [] := List.eq_nil_of_length_eq_zero (Nat.le_zero.mp h1)
    subst hs
    cases f2 <;> rfl
  | succ f1 ih =>
    intro f2 s h1 h2
    cases s with
    | nil => cases f2 <;> rfl
    | cons c cs =>
      cases f2 with
      | zero => exact absurd h2 (by simp)
      | succ f2 =>
        have hc1 : cs.length ≤ f1 := by simp only [List.length_cons] at h1; omega
        have hc2 : cs.length ≤ f2 := by simp only [List.length_cons] at h2; omega
        cases hm : m (c :: cs) with
        | none => simp only [reSubF, hm, ih f2 cs hc1 hc2]
        | some n =>
          have hd1 : (List.drop (n - 1) cs).length ≤ f1 := by
            rw [List.length_drop]; omega
          have hd2 : (List.drop (n - 1) cs).length ≤ f2 := by
            rw [List.length_drop]; omega
          simp only [reSubF, hm, ih f2 (List.drop (n - 1) cs) hd1 hd2]

theorem reSub_cons_none (m : List Char → Option Nat) (r : List Char) {c : Char}
    {cs : List Char} (h : m (c :: cs) = none) :
    reSub m r (c :: cs) = c :: reSub m r cs := by
  show reSubF m r (Nat.succ cs.length) (c :: cs) = c :: reSubF m r cs.length cs
  simp only [reSubF, h]

theorem reSub_cons_some (m : List Char → Option Nat) (r : List Char) {c : Char}
    {cs : List Char} {n : Nat} (h : m (c :: cs) = some n) :
    reSub m r (c :: cs) = r ++ reSub m r (List.drop (n - 1) cs) := by
  show reSubF m r (Nat.succ cs.length) (c :: cs)
      = r ++ reSubF m r (List.drop (n - 1) cs).length (List.drop (n - 1) cs)
  simp only [reSubF, h]
  congr 1
  exact reSubF_congr_fuel m r cs.length (List.drop (n - 1) cs).length _
    (by rw [List.length_drop]; omega) le_rfl

theorem reSub_head_match (m : List Char → Option Nat) (r : List Char) {s : List Char}
    {n : Nat} (h : m s = some n) (hn : 1 ≤ n) (hs : s ≠ []) :
    reSub m r s = r ++ reSub m r (List.drop n s) := by
  cases s with
  | nil => exact absurd rfl hs
  | cons c cs =>
    rw [reSub_cons_some m r h]
    obtain ⟨k, rfl⟩ : ∃ k, n = k + 1 := ⟨n - 1, by omega⟩
    simp [List.drop_succ_cons]

theorem reSub_id_of_noMatch (m : List Char → Option Nat) (r : List Char) :
    ∀ s, hasMatch m s = false → reSub m r s = s := by
  intro s
  induction s with
  | nil => intro _; rfl
  | cons c cs ih =>
    intro h
    simp only [hasMatch, Bool.or_eq_false_iff] at h
    obtain ⟨h1, h2⟩ := h
    have hm : m (c :: cs) = none := by
      cases hmm : m (c :: cs)
      · rfl
      · rw [hmm] at h1; simp at h1
    rw [reSub_cons_none m r hm, ih h2]

theorem reSub_append_of_noStart (m : List Char → Option Nat) (r : List Char) :
    ∀ p q, noStart m p q = true → reSub m r (p ++ q) = p ++ reSub m r q := by
  intro p
  induction p with
  | nil => intro q _; simp
  | cons c p ih =>
    intro q h
    simp only [noStart, Bool.and_eq_true, Option.isNone_iff_eq_none] at h
    obtain ⟨h1, h2⟩ := h
    have h1' : m (c :: (p ++ q)) = none := h1
    show reSub m r (c :: (p ++ q)) = (c :: p) ++ reSub m r q
    rw [reSub_cons_none m r h1', ih q h2]
    rfl

theorem wsRun_append (w rest : List Char) (hw : ∀ c ∈ w, isWS c = true)
    (hr : wsRun rest = 0) : wsRun (w ++ rest) = w.length := by
  induction w with
  | nil => simpa using hr
  | cons c w ih =>
    have hc : isWS c = true := hw c (List.mem_cons_self c w)
    have ihh := ih fun d hd => hw d (List.mem_cons_of_mem c hd)
    simp [wsRun, hc, ihh]

theorem startsWith_append_self (a b : List Char) : startsWith a (a ++ b) = true := by
  induction a with
  | nil => rfl
  | cons c a ih => simp [startsWith, ih]

theorem startsWith_append_left (a b : List Char) :
    ∀ s, startsWith (a ++ b) s = true → startsWith a s = true := by
  induction a with
  | nil => intro s _; rfl
  | cons c a ih =>
    intro s h
    cases s with
    | nil => simp [startsWith] at h
    | cons d s =>
      simp only [List.cons_append, startsWith, Bool.and_eq_true] at h ⊢
      exact ⟨h.1, ih s h.2⟩

theorem containsStr_of_startsWith (pat : List Char) :
    ∀ s, startsWith pat s = true → containsStr pat s = true := by
  intro s h
  cases s with
  | nil => simpa [containsStr] using h
  | cons c cs => simp [containsStr, h]

theorem containsStr_drop (pat : List Char) :
    ∀ k s, containsStr pat (List.drop k s) = true → containsStr pat s = true := by
  intro k
  induction k with
  | zero => intro s h; simpa using h
  | succ k ih =>
    intro s h
    cases s with
    | nil => simpa using h
    | cons c cs =>
      rw [List.drop_succ_cons] at h
      simp [containsStr, ih cs h]

theorem drop_len_add (a : List Char) :
    ∀ n (b : List Char), List.drop (a.length + n) (a ++ b) = List.drop n b := by
  induction a with
  | nil => intro n b; simp
  | cons c a ih =>
    intro n b
    have he : (c :: a).length + n = (a.length + n) + 1 := by
      simp only [List.length_cons]; omega
    rw [he]
    show List.drop ((a.length + n) + 1) (c :: (a ++ b)) = List.drop n b
    rw [List.drop_succ_cons, ih]

theorem drop_len (a b : List Char) : List.drop a.length (a ++ b) = b := by
  have h := drop_len_add a 0 b
  rw [Nat.add_zero] at h
  rw [h, List.drop_zero]

theorem length_ne_zero_of_ne_nil {w : List Char} (hw : w ≠ []) : ¬ (w.length = 0) :=
  fun h => hw (List.eq_nil_of_length_eq_zero h)

theorem matchP1_assembled (w s : List Char) (hw : w ≠ [])
    (hws : ∀ c ∈ w, isWS c = true) :
    matchP1 (w ++ (litParseTime ++ s)) = some (w.length + litParseTime.length) := by
  have hp : isWS 'p' = false := by decide
  have h0 : wsRun (litParseTime ++ s) = 0 := by
    simp [litParseTime, List.cons_append, wsRun, hp]
  have hr : wsRun (w ++ (litParseTime ++ s)) = w.length := wsRun_append _ _ hws h0
  have hne := length_ne_zero_of_ne_nil hw
  simp [matchP1, hr, hne, drop_len, startsWith_append_self]

theorem matchP3_assembled (w1 w2 w3 s : List Char)
    (hw1 : w1 ≠ []) (hws1 : ∀ c ∈ w1, isWS c = true)
    (hw2 : w2 ≠ []) (hws2 : ∀ c ∈ w2, isWS c = true)
    (hw3 : w3 ≠ []) (hws3 : ∀ c ∈ w3, isWS c = true) :
    matchP3 (w1 ++ (litLanguage ++ (w2 ++ (litResolved ++
        ('\n' :: (w3 ++ (litCloseBrace ++ s))))))) =
      some (w1.length + litLanguage.length + w2.length + litResolved.length + 1
        + w3.length + litCloseBrace.length) := by
  have hl : isWS 'l' = false := by decide
  have hrr : isWS 'r' = false := by decide
  have hb : isWS '\x7d' = false := by decide
  have z1 : wsRun (litLanguage ++ (w2 ++ (litResolved ++
      ('\n' :: (w3 ++ (litCloseBrace ++ s)))))) = 0 := by
    simp [litLanguage, List.cons_append, wsRun, hl]
  have z2 : wsRun (litResolved ++ ('\n' :: (w3 ++ (litCloseBrace ++ s)))) = 0 := by
    simp [litResolved, List.cons_append, wsRun, hrr]
  have z3 : wsRun (litCloseBrace ++ s) = 0 := by
    simp [litCloseBrace, List.cons_append, wsRun, hb]
  have e1 := wsRun_append _ _ hws1 z1
  have e2 := wsRun_append _ _ hws2 z2
  have e3 := wsRun_append _ _ hws3 z3
  have n1 := length_ne_zero_of_ne_nil hw1
  have n2 := length_ne_zero_of_ne_nil hw2
  have n3 := length_ne_zero_of_ne_nil hw3
  simp [matchP3, matchP3Lang, matchP3Sp, matchP3Res, matchP3Close,
    e1, e2, e3, n1, n2, n3, drop_len, startsWith_append_self]

theorem matchP1_eq_some {s : List Char} {n : Nat} (h : matchP1 s = some n) :
    wsRun s ≠ 0 ∧ startsWith litParseTime (List.drop (wsRun s) s) = true
      ∧ n = wsRun s + litParseTime.length := by
  by_cases h1 : wsRun s = 0
  · simp [matchP1, h1] at h
  · by_cases h2 : startsWith litParseTime (List.drop (wsRun s) s) = true
    · simp [matchP1, h1, h2] at h
      exact ⟨h1, h2, h.symm⟩
    · simp [matchP1, h1, h2] at h

theorem matchP1_bound {s : List Char} {n : Nat} (h : matchP1 s = some n) :
    replNewline.length ≤ n ∧ 1 ≤ n := by
  obtain ⟨h1, _, h3⟩ := matchP1_eq_some h
  have e1 : litParseTime.length = 11 := rfl
  have e2 : replNewline.length = 1 := rfl
  omega

theorem matchP1_contains {s : List Char} {n : Nat} (h : matchP1 s = some n) :
    containsStr litParseTimeStr s = true := by
  obtain ⟨_, h2, _⟩ := matchP1_eq_some h
  have e : litParseTime = litParseTimeStr ++ ['\n'] := rfl
  rw [e] at h2
  have hsw := startsWith_append_left _ _ _ h2
  exact containsStr_drop _ _ _ (containsStr_of_startsWith _ _ hsw)

theorem matchP3_eq_some {s : List Char} {n : Nat} (h : matchP3 s = some n) :
    wsRun s ≠ 0 ∧ matchP3Lang (wsRun s) (List.drop (wsRun s) s) = some n := by
  by_cases h1 : wsRun s = 0
  · simp [matchP3, h1] at h
  · simp only [matchP3, h1, if_false] at h
    exact ⟨h1, h⟩

theorem matchP3Lang_eq_some {k1 : Nat} {s1 : List Char} {n : Nat}
    (h : matchP3Lang k1 s1 = some n) :
    startsWith litLanguage s1 = true
      ∧ matchP3Sp k1 (List.drop litLanguage.length s1) = some n := by
  by_cases h1 : startsWith litLanguage s1 = true
  · simp only [matchP3Lang, h1, if_true] at h
    exact ⟨h1, h⟩
  · simp [matchP3Lang, h1] at h

theorem matchP3Sp_eq_some {k1 : Nat} {s2 : List Char} {n : Nat}
    (h : matchP3Sp k1 s2 = some n) :
    wsRun s2 ≠ 0 ∧ matchP3Res k1 (wsRun s2) (List.drop (wsRun s2) s2) = some n := by
  by_cases h1 : wsRun s2 = 0
  · simp [matchP3Sp, h1] at h
  · simp only [matchP3Sp, h1, if_false] at h
    exact ⟨h1, h⟩

theorem matchP3Res_eq_some {k1 k2 : Nat} {s3 : List Char} {n : Nat}
    (h : matchP3Res k1 k2 s3 = some n) :
    startsWith litResolved s3 = true
      ∧ matchP3Close k1 k2 (List.drop litResolved.length s3) = some n := by
  by_cases h1 : startsWith litResolved s3 = true
  · simp only [matchP3Res, h1, if_true] at h
    exact ⟨h1, h⟩
  · simp [matchP3Res, h1] at h

theorem matchP3Close_eq_some {k1 k2 : Nat} {s4 : List Char} {n : Nat}
    (h : matchP3Close k1 k2 s4 = some n) :
    ∃ s5, s4 = '\n' :: s5 ∧ wsRun s5 ≠ 0
      ∧ startsWith litCloseBrace (List.drop (wsRun s5) s5) = true
      ∧ n = k1 + litLanguage.length + k2 + litResolved.length + 1
          + wsRun s5 + litCloseBrace.length := by
  cases s4 with
  | nil => simp [matchP3Close] at h
  | cons c s5 =>
    by_cases hc : c = '\n'
    · subst hc
      by_cases h1 : wsRun s5 = 0
      · simp [matchP3Close, h1] at h
      · by_cases h2 : startsWith litCloseBrace (List.drop (wsRun s5) s5) = true
        · simp [matchP3Close, h1, h2] at h
          exact ⟨s5, rfl, h1, h2, h.symm⟩
        · simp [matchP3Close, h1, h2] at h
    · simp [matchP3Close, hc] at h

theorem matchP3_bound {s : List Char} {n : Nat} (h : matchP3 s = some n) :
    replClose.length ≤ n ∧ 1 ≤ n := by
  obtain ⟨h1, h2⟩ := matchP3_eq_some h
  obtain ⟨_, h3⟩ := matchP3Lang_eq_some h2
  obtain ⟨h4, h5⟩ := matchP3Sp_eq_some h3
  obtain ⟨_, h6⟩ := matchP3Res_eq_some h5
  obtain ⟨s5, _, h7, _, h8⟩ := matchP3Close_eq_some h6
  have e1 : litLanguage.length = 9 := rfl
  have e2 : litResolved.length = 17 := rfl
  have e3 : litCloseBrace.length = 2 := rfl
  have e4 : replClose.length = 11 := rfl
  omega

theorem matchP3_contains {s : List Char} {n : Nat} (h : matchP3 s = some n) :
    containsStr litResolved s = true := by
  obtain ⟨h1, h2⟩ := matchP3_eq_some h
  obtain ⟨_, h3⟩ := matchP3Lang_eq_some h2
  obtain ⟨h4, h5⟩ := matchP3Sp_eq_some h3
  obtain ⟨h6, _⟩ := matchP3Res_eq_some h5
  exact containsStr_drop _ _ _ (containsStr_drop _ _ _ (containsStr_drop _ _ _
    (containsStr_of_startsWith _ _ h6)))

theorem startsWith_le_length (p : List Char) :
    ∀ s, startsWith p s = true → p.length ≤ s.length := by
  induction p with
  | nil => intro s _; simp
  | cons c p ih =>
    intro s h
    cases s with
    | nil => simp [startsWith] at h
    | cons d s =>
      simp only [startsWith, Bool.and_eq_true] at h
      simp only [List.length_cons]
      exact Nat.succ_le_succ (ih s h.2)

theorem wsRun_le_length (s : List Char) : wsRun s ≤ s.length := by
  induction s with
  | nil => simp [wsRun]
  | cons c cs ih =>
    by_cases hc : isWS c = true
    · simp only [wsRun, hc, if_true, List.length_cons]
      omega
    · have h0 : wsRun (c :: cs) = 0 := by simp [wsRun, hc]
      rw [h0]
      simp

theorem matchP1_le_length {s : List Char} {n : Nat} (h : matchP1 s = some n) :
    n ≤ s.length := by
  obtain ⟨h1, h2, h3⟩ := matchP1_eq_some h
  have h4 := startsWith_le_length _ _ h2
  rw [List.length_drop] at h4
  have h5 := wsRun_le_length s
  omega

theorem matchP3_le_length {s : List Char} {n : Nat} (h : matchP3 s = some n) :
    n ≤ s.length := by
  obtain ⟨h1, h2⟩ := matchP3_eq_some h
  obtain ⟨hA, h3⟩ := matchP3Lang_eq_some h2
  obtain ⟨h4, h5⟩ := matchP3Sp_eq_some h3
  obtain ⟨h6, h7⟩ := matchP3Res_eq_some h5
  obtain ⟨s5, h8, h9, h10, h11⟩ := matchP3Close_eq_some h7
  have lA := startsWith_le_length _ _ hA
  have lR := startsWith_le_length _ _ h6
  have lC := startsWith_le_length _ _ h10
  have w1 := wsRun_le_length s
  have w2 := wsRun_le_length (List.drop litLanguage.length (List.drop (wsRun s) s))
  have w3 := wsRun_le_length s5
  have l8 := congrArg List.length h8
  simp only [List.length_drop, List.length_cons] at lA lR lC l8
  have e1 : litLanguage.length = 9 := rfl
  have e2 : litResolved.length = 17 := rfl
  have e3 : litCloseBrace.length = 2 := rfl
  omega

theorem reSubF_length (m : List Char → Option Nat) (r : List Char)
    (hm : ∀ t n, m t = some n → r.length ≤ n ∧ 1 ≤ n ∧ n ≤ t.length) :
    ∀ f s, (reSubF m r f s).length ≤ s.length := by
  intro f
  induction f with
  | zero => intro s; cases s <;> simp [reSubF]
  | succ f ih =>
    intro s
    cases s with
    | nil => simp [reSubF]
    | cons c cs =>
      cases hmc : m (c :: cs) with
      | none =>
        simp only [reSubF, hmc, List.length_cons]
        exact Nat.succ_le_succ (ih cs)
      | some n =>
        simp only [reSubF, hmc, List.length_append, List.length_cons]
        obtain ⟨hr, hn, hle⟩ := hm _ _ hmc
        simp only [List.length_cons] at hle
        have h1 := ih (List.drop (n - 1) cs)
        rw [List.length_drop] at h1
        omega

theorem reSub_length (m : List Char → Option Nat) (r : List Char)
    (hm : ∀ t n, m t = some n → r.length ≤ n ∧ 1 ≤ n ∧ n ≤ t.length) :
    ∀ s, (reSub m r s).length ≤ s.length :=
  fun s => reSubF_length m r hm s.length s

/-- The end-to-end scenario input document of the spec (claim C1). -/
def scenarioInput : List Char :=
  "return \x7b\n        result,\n        parseTime,\n        language: resolvedLanguage,\n    \x7d;\n".toList

/-- The output the spec claims for the scenario: both targeted lines removed. -/
def scenarioClaimed : List Char :=
  "return \x7b\n        result,\n    \x7d;\n".toList

/-- The output the code actually produces on the scenario input: only the
parseTime line is removed; the language line stays because the scenario's
object literal closes with a brace and semicolon while rule 3 requires a brace
and comma. -/
def scenarioActual : List Char :=
  "return \x7b\n        result,\n        language: resolvedLanguage,\n    \x7d;\n".toList

/-- The two-space indented block of claim C2. -/
def blockC2 : List Char := "  language: resolvedLanguage,\n  \x7d,".toList

/-- Counterexample document for claim C2. -/
def cx2doc : List Char := "x\n  language: resolvedLanguage,\n  \x7d,\n".toList

/-- Counterexample document for claim C3: its first line, trimmed, is exactly
parseTime, but it has no leading whitespace for the regex \s+ to consume. -/
def cx3doc : List Char := "parseTime,\nx".toList

/-- Counterexample document for claim C4: removing the first parseTime line
joins the inserted newline with the following zero-indented parseTime line,
creating a new match for rule 2. -/
def cx4doc : List Char := " parseTime,\nparseTime,\n".toList

/-- Counterexample document for claim C5: it contains neither the substring
parseTime, nor the substring of language: plus single space plus
resolvedLanguage, yet rule 3 matches it, as its pattern allows any whitespace
run between language: and resolvedLanguage, -- here two spaces. -/
def cx5doc : List Char := " language:  resolvedLanguage,\n \x7d,".toList

theorem blockC2_assembled :
    blockC2 = [' ', ' '] ++ (litLanguage ++ ([' '] ++ (litResolved ++
      ('\n' :: ([' ', ' '] ++ litCloseBrace))))) := by decide

theorem hasMatch_implies_contains (m : List Char → Option Nat) (pat : List Char)
    (hmc : ∀ t n, m t = some n → containsStr pat t = true) :
    ∀ s, hasMatch m s = true → containsStr pat s = true := by
  intro s
  induction s with
  | nil => intro h; simp [hasMatch] at h
  | cons c cs ih =>
    intro h
    simp only [hasMatch, Bool.or_eq_true] at h
    cases h with
    | inl h1 =>
      obtain ⟨n, hn⟩ := Option.isSome_iff_exists.mp h1
      exact hmc _ _ hn
    | inr h2 => simp [containsStr, ih h2]

/-- C1 (counterexample): on the spec's end-to-end scenario input, the full
Rule Set does not produce the output the spec claims -- the language line is
not removed, because rule 3's pattern ends in a brace-comma while the
scenario's object literal closes with a brace-semicolon. -/
theorem claimC1_counterexample : fixParser scenarioInput ≠ scenarioClaimed := by
  decide

/-- C1 (amended): on the end-to-end scenario input, the full Rule Set removes
exactly the parseTime line; the language line and the closing line are left
unchanged, with indentation preserved. -/
theorem claimC1 : fixParser scenarioInput = scenarioActual := by decide

/-- C2 (counterexample): a Document containing the two-space indented block of
the claim.  Rule 3 does not leave a closing brace with its original two-space
indentation at that location: the output re-indents the brace with the fixed
eight spaces of the replacement string, and contains no newline followed by a
two-space indented brace-comma at all. -/
theorem claimC2_counterexample :
    containsStr blockC2 cx2doc = true
      ∧ fixStep3 cx2doc = "x\n        \x7d,\n".toList
      ∧ containsStr ("\n  \x7d,".toList) (fixStep3 cx2doc) = false := by decide

/-- C2 (amended): for every Document of the form p ++ block ++ s, where block
is the two-space indented block of the claim and no match of rule 3's pattern
starts inside p, rule 3 replaces the matched span with the fixed replacement
of a newline, eight spaces and a brace-comma (not with the block's original
two-space indentation), and continues on s. -/
theorem claimC2 (p s : List Char) (hp : noStart matchP3 p (blockC2 ++ s) = true) :
    fixStep3 (p ++ (blockC2 ++ s)) = p ++ (replClose ++ fixStep3 s) := by
  show reSub matchP3 replClose (p ++ (blockC2 ++ s))
      = p ++ (replClose ++ reSub matchP3 replClose s)
  rw [reSub_append_of_noStart _ _ _ _ hp]
  congr 1
  have hb : blockC2 ++ s = [' ', ' '] ++ (litLanguage ++ ([' '] ++ (litResolved ++
      ('\n' :: ([' ', ' '] ++ (litCloseBrace ++ s)))))) := by
    rw [blockC2_assembled]
    simp [List.append_assoc, List.cons_append]
  have hasm := matchP3_assembled [' ', ' '] [' '] [' ', ' '] s
    (by decide) (by decide) (by decide) (by decide) (by decide) (by decide)
  have hm : matchP3 (blockC2 ++ s) = some 34 := by
    rw [hb, hasm]
    decide
  have hne : blockC2 ++ s ≠ [] := by
    rw [blockC2_assembled]
    simp
  have hd : List.drop 34 (blockC2 ++ s) = s := by
    rw [show (34 : Nat) = blockC2.length from by decide]
    exact drop_len _ _
  rw [reSub_head_match _ _ hm (by omega) hne, hd]

/-- C2 (witness): the amended claim applied at a concrete prefix, block and
suffix. -/
theorem claimC2_witness :
    noStart matchP3 ['x'] (blockC2 ++ ['\n']) = true
      ∧ fixStep3 (['x'] ++ (blockC2 ++ ['\n'])) = ['x'] ++ (replClose ++ fixStep3 ['\n']) :=
  ⟨by decide, claimC2 ['x'] ['\n'] (by decide)⟩

/-- C3 (counterexample): a Document whose first line, trimmed, is exactly
parseTime, -- but with zero leading indentation at the start of the Document.
Rule 1 requires at least one whitespace character before the token, so it
leaves this Document completely unchanged instead of removing the line. -/
theorem claimC3_counterexample :
    litParseTimeStr ∈ (splitLines cx3doc).map trimWS ∧ fixStep1 cx3doc = cx3doc := by
  decide

/-- C3 (amended): for every Document of the form p ++ w ++ parseTime, ++
newline ++ s, where w is a nonempty whitespace run (which may include the line
break before the line and any blank lines) and no match of rule 1's pattern
starts inside p, rule 1 collapses w together with the parseTime, line into a
single newline, leaving p unchanged and processing s likewise.  A parseTime,
line with no whitespace before it at all, or with trailing blanks before its
newline, is not removed. -/
theorem claimC3 (p w s : List Char) (hw : w ≠ []) (hws : ∀ c ∈ w, isWS c = true)
    (hp : noStart matchP1 p (w ++ (litParseTime ++ s)) = true) :
    fixStep1 (p ++ (w ++ (litParseTime ++ s))) = p ++ ('\n' :: fixStep1 s) := by
  show reSub matchP1 replNewline (p ++ (w ++ (litParseTime ++ s)))
      = p ++ ('\n' :: reSub matchP1 replNewline s)
  rw [reSub_append_of_noStart _ _ _ _ hp]
  congr 1
  have hm := matchP1_assembled w s hw hws
  have hne : w ++ (litParseTime ++ s) ≠ [] := by
    cases w with
    | nil => exact absurd rfl hw
    | cons c cs => simp
  have hlen : litParseTime.length = 11 := rfl
  have hd : List.drop (w.length + litParseTime.length) (w ++ (litParseTime ++ s)) = s := by
    rw [drop_len_add]
    exact drop_len _ _
  rw [reSub_head_match _ _ hm (by omega) hne, hd]
  rfl

/-- C3 (witness): the amended claim applied at a concrete prefix, whitespace
run and suffix. -/
theorem claimC3_witness :
    (['\n'] : List Char) ≠ [] ∧ (∀ c ∈ (['\n'] : List Char), isWS c = true)
      ∧ noStart matchP1 ['x'] (['\n'] ++ (litParseTime ++ ['o', 'k'])) = true
      ∧ fixStep1 (['x'] ++ (['\n'] ++ (litParseTime ++ ['o', 'k'])))
          = ['x'] ++ ('\n' :: fixStep1 ['o', 'k']) :=
  ⟨by decide, by decide, by decide,
   claimC3 ['x'] ['\n'] ['o', 'k'] (by decide) (by decide) (by decide)⟩

/-- C4 (counterexample): rule 1 can leave a span matching its own pattern --
the newline it inserts joins with a following zero-indented parseTime, line --
and then rule 2, applied to rule 1's output, makes a further change. -/
theorem claimC4_counterexample :
    fixStep2 (fixStep1 cx4doc) ≠ fixStep1 cx4doc
      ∧ hasMatch matchP1 (fixStep1 cx4doc) = true := by decide

/-- C4 (amended): whenever rule 1's output contains no remaining span matching
the shared pattern, applying rule 2 to that output produces no further change.
In general rule 1 can leave such a span, so the hypothesis is needed. -/
theorem claimC4 (s : List Char) (h : hasMatch matchP1 (fixStep1 s) = false) :
    fixStep2 (fixStep1 s) = fixStep1 s :=
  reSub_id_of_noMatch _ _ _ h

/-- C4 (witness): the amended claim applied at a concrete Document on which
rule 1's output has no remaining match. -/
theorem claimC4_witness :
    hasMatch matchP1 (fixStep1 ("  parseTime,\nx".toList)) = false
      ∧ fixStep2 (fixStep1 ("  parseTime,\nx".toList)) = fixStep1 ("  parseTime,\nx".toList) :=
  ⟨by decide, claimC4 _ (by decide)⟩

/-- C5 (counterexample): a Document containing neither the substring
parseTime, nor the substring language: resolvedLanguage, (with a single
space), on which the full Rule Set nevertheless changes the Document: rule 3's
pattern allows any whitespace run between language: and resolvedLanguage, and
here there are two spaces. -/
theorem claimC5_counterexample :
    containsStr litParseTimeStr cx5doc = false
      ∧ containsStr ("language: resolvedLanguage,".toList) cx5doc = false
      ∧ fixParser cx5doc ≠ cx5doc := by decide

/-- C5 (amended): for every Document containing no occurrence of the substring
parseTime, and no occurrence of the substring resolvedLanguage, the full Rule
Set returns the Document byte-identical to the input. -/
theorem claimC5 (s : List Char) (h1 : containsStr litParseTimeStr s = false)
    (h2 : containsStr litResolved s = false) : fixParser s = s := by
  have n1 : hasMatch matchP1 s = false := by
    cases hb : hasMatch matchP1 s
    · rfl
    · have hc := hasMatch_implies_contains matchP1 litParseTimeStr
        (fun t n ht => matchP1_contains ht) s hb
      rw [h1] at hc
      simp at hc
  have n3 : hasMatch matchP3 s = false := by
    cases hb : hasMatch matchP3 s
    · rfl
    · have hc := hasMatch_implies_contains matchP3 litResolved
        (fun t n ht => matchP3_contains ht) s hb
      rw [h2] at hc
      simp at hc
  show fixStep3 (fixStep2 (fixStep1 s)) = s
  rw [show fixStep1 s = s from reSub_id_of_noMatch _ _ _ n1]
  rw [show fixStep2 s = s from reSub_id_of_noMatch _ _ _ n1]
  exact reSub_id_of_noMatch _ _ _ n3

/-- C5 (witness): the amended claim applied at a concrete Document free of
both substrings. -/
theorem claimC5_witness :
    containsStr litParseTimeStr ("hello\n".toList) = false
      ∧ containsStr litResolved ("hello\n".toList) = false
      ∧ fixParser ("hello\n".toList) = "hello\n".toList :=
  ⟨by decide, by decide, claimC5 _ (by decide) (by decide)⟩

/-- C6: if, after one application of the full Rule Set, neither pattern of the
Rule Set finds any match in the result, then a second application of the full
Rule Set leaves that result unchanged (idempotence on its own output under the
claim's assumption).  Rules 1 and 2 share one pattern, so two hypotheses cover
all three rules. -/
theorem claimC6 (s : List Char)
    (h1 : hasMatch matchP1 (fixParser s) = false)
    (h3 : hasMatch matchP3 (fixParser s) = false) :
    fixParser (fixParser s) = fixParser s := by
  show fixStep3 (fixStep2 (fixStep1 (fixParser s))) = fixParser s
  rw [show fixStep1 (fixParser s) = fixParser s from reSub_id_of_noMatch _ _ _ h1]
  rw [show fixStep2 (fixParser s) = fixParser s from reSub_id_of_noMatch _ _ _ h1]
  exact reSub_id_of_noMatch _ _ _ h3

/-- C6 (witness): the claim applied to the end-to-end scenario input, whose
output indeed has no remaining match for either pattern. -/
theorem claimC6_witness :
    hasMatch matchP1 (fixParser scenarioInput) = false
      ∧ hasMatch matchP3 (fixParser scenarioInput) = false
      ∧ fixParser (fixParser scenarioInput) = fixParser scenarioInput :=
  ⟨by decide, by decide, claimC6 scenarioInput (by decide) (by decide)⟩

/-- C7: for every Rule of the fixed Rule Set and every Document, if the Rule's
pattern matches zero spans in the Document, applying the Rule returns the
Document unchanged.  The embedding is a total function, so no error can be
raised. -/
theorem claimC7 (ru : Rule) (_hru : ru ∈ ruleSet) (s : List Char)
    (h : hasMatch ru.pat s = false) : applyRule ru s = s :=
  reSub_id_of_noMatch _ _ _ h

/-- C7 (witness): the claim applied to rule 3 of the Rule Set and a concrete
matchless Document. -/
theorem claimC7_witness :
    rule3 ∈ ruleSet ∧ hasMatch rule3.pat ['x'] = false ∧ applyRule rule3 ['x'] = ['x'] :=
  ⟨List.mem_cons_of_mem _ (List.mem_cons_of_mem _ (List.mem_cons_self _ _)),
   by decide,
   claimC7 rule3
     (List.mem_cons_of_mem _ (List.mem_cons_of_mem _ (List.mem_cons_self _ _)))
     ['x'] (by decide)⟩

/-- C8 (counterexample): with the first pattern malformed, the script's event
trace still contains the read of the target file -- the file is read at line 6,
before any pattern is compiled at line 11 -- so the halt does not happen before
file access, contrary to the claim. -/
theorem claimC8_counterexample :
    (false && true && true) = false
      ∧ Ev.readFile ∈ scriptTrace false true true
      ∧ scriptTrace false true true = [Ev.readFile, Ev.compilePat 1] := by decide

/-- C8 (amended): if any pattern of the Rule Set is malformed, the program
halts at the first failing re.sub call: after the target file has already been
read, but before it is written back. -/
theorem claimC8 (ok1 ok2 ok3 : Bool) (h : (ok1 && ok2 && ok3) = false) :
    Ev.readFile ∈ scriptTrace ok1 ok2 ok3
      ∧ Ev.writeFile ∉ scriptTrace ok1 ok2 ok3 := by
  cases ok1 <;> cases ok2 <;> cases ok3 <;>
    first
    | exact absurd h (by decide)
    | decide

/-- C8 (witness): the amended claim applied with the first pattern malformed. -/
theorem claimC8_witness :
    (false && true && true) = false
      ∧ (Ev.readFile ∈ scriptTrace false true true
        ∧ Ev.writeFile ∉ scriptTrace false true true) :=
  ⟨by decide, claimC8 false true true (by decide)⟩

/-- C9: the substitution engine is a deterministic pure function of the input
Document: two runs on equal inputs give equal outputs.  In this embedding the
engine is a total function on character lists, so it has no effect other than
producing its output. -/
theorem claimC9 (s t : List Char) (h : s = t) : fixParser s = fixParser t := by
  rw [h]

/-- C9 (witness): the claim applied to two copies of a concrete Document. -/
theorem claimC9_witness : fixParser ("run".toList) = fixParser ("run".toList) :=
  claimC9 _ _ rfl

/-- C10: each of the three rules weakly decreases the length of the Document,
and so does the full Rule Set: every replacement string is no longer than any
span its pattern can match (a rule 1 or 2 match has length at least 12 against
a replacement of length 1; a rule 3 match has length at least 32 against a
replacement of length 11). -/
theorem claimC10 (s : List Char) :
    (fixStep1 s).length ≤ s.length ∧ (fixStep2 s).length ≤ s.length
      ∧ (fixStep3 s).length ≤ s.length ∧ (fixParser s).length ≤ s.length := by
  have hm1 : ∀ t n, matchP1 t = some n → replNewline.length ≤ n ∧ 1 ≤ n ∧ n ≤ t.length :=
    fun t n h => ⟨(matchP1_bound h).1, (matchP1_bound h).2, matchP1_le_length h⟩
  have hm3 : ∀ t n, matchP3 t = some n → replClose.length ≤ n ∧ 1 ≤ n ∧ n ≤ t.length :=
    fun t n h => ⟨(matchP3_bound h).1, (matchP3_bound h).2, matchP3_le_length h⟩
  have l1 : ∀ t, (fixStep1 t).length ≤ t.length := fun t => reSub_length _ _ hm1 t
  have l2 : ∀ t, (fixStep2 t).length ≤ t.length := fun t => reSub_length _ _ hm1 t
  have l3 : ∀ t, (fixStep3 t).length ≤ t.length := fun t => reSub_length _ _ hm3 t
  refine ⟨l1 s, l2 s, l3 s, ?_⟩
  calc (fixParser s).length
      = (fixStep3 (fixStep2 (fixStep1 s))).length := rfl
    _ ≤ (fixStep2 (fixStep1 s)).length := l3 _
    _ ≤ (fixStep1 s).length := l2 _
    _ ≤ s.length := l1 s
